import Mathlib

/-!
Verification of the `once_again` reproducible-call cache
(`src/once_again/reproducible_call.py`) via a shallow embedding.

The embedding models:
* `cache_hash` — SHA-1 of the ASCII encoding of the comma-joined reprs,
  truncated to the last 16 hex characters (`sha1(...).hexdigest()[-16:]`);
* Python `repr` on the value shapes exercised by the library
  (ints, strings, tuples, lists, dicts, custom objects with a stable repr);
* `cache_checking_call` — the lookup / validity-check / invoke / store
  orchestration, over an explicit file-system state;
* the decorator wrapper `reproducible_call`'s dispatch on callable shape.
-/

namespace OnceAgain

/-! ## SHA-1 over byte lists (bytes are `Nat` values `< 256`) -/

def w32 (x : Nat) : Nat := x % 4294967296

def rotl (s x : Nat) : Nat := w32 ((x <<< s) + (x >>> (32 - s)))

def sha1f (t b c d : Nat) : Nat :=
  if t < 20 then (b &&& c) ||| ((b ^^^ 4294967295) &&& d)
  else if t < 40 then b ^^^ c ^^^ d
  else if t < 60 then (b &&& c) ||| (b &&& d) ||| (c &&& d)
  else b ^^^ c ^^^ d

def sha1k (t : Nat) : Nat :=
  if t < 20 then 0x5A827999
  else if t < 40 then 0x6ED9EBA1
  else if t < 60 then 0x8F1BBCDC
  else 0xCA62C1D6

/-- SHA-1 padding: append `0x80`, zero bytes to 56 mod 64, then the
bit length as 8 big-endian bytes. -/
def sha1pad (msg : List Nat) : List Nat :=
  let len := msg.length
  let zeros := (119 - len % 64) % 64
  let bitLen := len * 8
  msg ++ 0x80 :: List.replicate zeros 0 ++
    [w32 (bitLen >>> 56) % 256, (bitLen >>> 48) % 256, (bitLen >>> 40) % 256,
     (bitLen >>> 32) % 256, (bitLen >>> 24) % 256, (bitLen >>> 16) % 256,
     (bitLen >>> 8) % 256, bitLen % 256]

/-- Split a list into 64-element blocks (structural recursion on a fuel
bound so that it reduces definitionally). -/
def toBlocksAux : Nat → List Nat → List (List Nat)
  | 0, _ => []
  | _, [] => []
  | fuel + 1, a :: l => ((a :: l).take 64) :: toBlocksAux fuel ((a :: l).drop 64)

def toBlocks (l : List Nat) : List (List Nat) := toBlocksAux l.length l

/-- Big-endian 32-bit words from groups of four bytes. -/
def beWords : List Nat → List Nat
  | a :: b :: c :: d :: rest => (((a * 256 + b) * 256 + c) * 256 + d) :: beWords rest
  | _ => []

/-- Extend the 16 message words to the 80-word schedule. -/
def sha1schedule (ws : Array Nat) : Array Nat :=
  (List.range 64).foldl
    (fun a i =>
      let t := i + 16
      a.push (rotl 1 ((a.getD (t - 3) 0) ^^^ (a.getD (t - 8) 0) ^^^
                      (a.getD (t - 14) 0) ^^^ (a.getD (t - 16) 0))))
    ws

def sha1block (h0 : Nat × Nat × Nat × Nat × Nat) (block : List Nat) :
    Nat × Nat × Nat × Nat × Nat :=
  let ws := sha1schedule (beWords block).toArray
  let fin := (List.range 80).foldl
    (fun st t =>
      let (a, b, c, d, e) := st
      (w32 (rotl 5 a + sha1f t b c d + e + sha1k t + ws.getD t 0),
       a, rotl 30 b, c, d))
    h0
  (w32 (h0.1 + fin.1), w32 (h0.2.1 + fin.2.1), w32 (h0.2.2.1 + fin.2.2.1),
   w32 (h0.2.2.2.1 + fin.2.2.2.1), w32 (h0.2.2.2.2 + fin.2.2.2.2))

/-- The 160-bit SHA-1 digest of a byte list, as a natural number. -/
def sha1Nat (msg : List Nat) : Nat :=
  let st := (toBlocks (sha1pad msg)).foldl sha1block
    (0x67452301, 0xEFCDAB89, 0x98BADCFE, 0x10325476, 0xC3D2E1F0)
  (((st.1 * 4294967296 + st.2.1) * 4294967296 + st.2.2.1) * 4294967296 +
      st.2.2.2.1) * 4294967296 + st.2.2.2.2

def hexChar (n : Nat) : Char :=
  if n < 10 then Char.ofNat (48 + n) else Char.ofNat (87 + n)

/-- Little-endian list of `k` hex digits of `n`. -/
def hexRev : Nat → Nat → List Char
  | 0, _ => []
  | k + 1, n => hexChar (n % 16) :: hexRev k (n / 16)

/-- Fixed-width (zero-padded) big-endian hex rendering. -/
def toHexFixed (k n : Nat) : String := String.mk (hexRev k n).reverse

/-- `hexdigest()`: 40 hex characters. -/
def sha1hex (msg : List Nat) : String := toHexFixed 40 (sha1Nat msg)

/-- Python `s[-k:]`. -/
def pyLast (k : Nat) (s : String) : String :=
  String.mk (s.data.drop (s.data.length - k))

def isAscii (s : String) : Bool := s.data.all (fun c => c.toNat < 128)

/-- Python `str.encode("ascii")`: fails when some character is ≥ U+0080. -/
def encodeAscii (s : String) : Option (List Nat) :=
  if isAscii s then some (s.data.map Char.toNat) else none

set_option maxRecDepth 8000 in
theorem sha1hex_abc :
    sha1hex [97, 98, 99] = "a9993e364706816aba3e25717850c26c9cd0d89d" := by
  rfl

/-! ## Python values and `repr`

The value shapes the library's arguments range over.  Custom objects are
carried by their (assumed stable, address-free) `__repr__` string, which is
exactly the contract `cache_checking_call`'s docstring imposes on callers. -/

mutual

inductive PyVal where
  | int (n : Int)
  | str (s : String)
  | tuple (xs : PyList)
  | list (xs : PyList)
  | dict (es : PyKVs)
  | obj (reprStr : String)

inductive PyList where
  | nil
  | cons (x : PyVal) (xs : PyList)

inductive PyKVs where
  | nil
  | cons (k v : PyVal) (es : PyKVs)

end

/-- Python `str.join` over a list of strings. -/
def joinSep (sep : String) : List String → String
  | [] => ""
  | [x] => x
  | x :: y :: xs => x ++ sep ++ joinSep sep (y :: xs)

mutual

/-- Python `repr` on the modelled values: decimal for ints, single-quoted
strings, `(a, b)` / `(a,)` tuples, `[a, b]` lists, insertion-ordered
`\x7b'k': v\x7d` dicts, and the carried repr string for custom objects. -/
def pyRepr : PyVal → String
  | .int n => toString n
  | .str s => "'" ++ s ++ "'"
  | .tuple (.cons x .nil) => "(" ++ pyRepr x ++ ",)"
  | .tuple xs => "(" ++ joinSep ", " (pyReprs xs) ++ ")"
  | .list xs => "[" ++ joinSep ", " (pyReprs xs) ++ "]"
  | .dict es => "\x7b" ++ joinSep ", " (pyReprKVs es) ++ "\x7d"
  | .obj r => r

def pyReprs : PyList → List String
  | .nil => []
  | .cons x xs => pyRepr x :: pyReprs xs

def pyReprKVs : PyKVs → List String
  | .nil => []
  | .cons k v es => (pyRepr k ++ ": " ++ pyRepr v) :: pyReprKVs es

end

/-- Membership view of a `PyList`. -/
def PyList.toList : PyList → List PyVal
  | .nil => []
  | .cons x xs => x :: xs.toList

/-- The values stored in a `PyKVs`. -/
def PyKVs.vals : PyKVs → List PyVal
  | .nil => []
  | .cons _ v es => v :: es.vals

/-- The keys stored in a `PyKVs`. -/
def PyKVs.keys : PyKVs → List PyVal
  | .nil => []
  | .cons k _ es => k :: es.keys

/-! ## `cache_hash`

Source: `sha1(','.join(map(repr, args)).encode("ascii")).hexdigest()[-16:]`.
The `ascii` encode raises on non-ASCII characters, modelled by `Option`. -/

/-- The string `','.join(map(repr, args))`. -/
def hashInput (args : List PyVal) : String := joinSep "," (args.map pyRepr)

def cache_hash (args : List PyVal) : Option String :=
  (encodeAscii (hashInput args)).map (fun bytes => pyLast 16 (sha1hex bytes))

/-- The positional-argument tuple `(10, 20)` of the end-to-end test. -/
def argsF : PyVal := .tuple (.cons (.int 10) (.cons (.int 20) .nil))

/-- The keyword dict of the end-to-end test, in call-site order `c, d`. -/
def kwargsF : PyVal := .dict (.cons (.str "c") (.int 30)
  (.cons (.str "d") (.int 4) .nil))

set_option maxRecDepth 8000 in
theorem cache_hash_test_vector :
    cache_hash [argsF, kwargsF] = some "5270d670cd06f7c9" := by
  rfl

/-! ## The cache state and `cache_checking_call`

The file system is a map from file names to file data; a file stores an
mtime and either a well-formed pickled 4-tuple
`(format_version, args, kwargs, retval)` or unreadable bytes (on which
`pickle.load`, or the 4-way unpacking, raises).  Times are exact rationals
standing in for the float seconds of `time.time()`. -/

section Machine

variable {E V : Type}

inductive FileContent (V : Type) where
  | entry (version : String) (args_saved kwargs_saved : PyVal) (retval : V)
  | corrupt

structure FileData (V : Type) where
  mtime : Int
  content : FileContent V

structure CallState (V : Type) where
  fs : String → Option (FileData V)
  dirs : String → Bool
  now : Int

/-- Errors escaping the wrapper: the `ascii` encode failure inside
`cache_hash`, a `pickle.load`/unpacking failure, an exception `e` raised by
the wrapped callable, the `AssertionError` for unsupported callables, the
`RuntimeError` for a file squatting on the cache dir path, and the
`getattr` failure when the receiver's class lacks the method's name. -/
inductive CallError (E : Type) where
  | encodeError
  | unpickleError
  | raised (e : E)
  | unsupportedCallable (typeName : String)
  | cacheDirConflict
  | attributeError

structure CallOutcome (E V : Type) where
  result : Except (CallError E) V
  invoked : Bool
  fs : String → Option (FileData V)
  dirs : String → Bool

def CACHE_VER : String := "v01"

/-- `os.path.join(cache_path, f"\x7bf.__qualname__\x7d.\x7bh\x7d.cache")`. -/
def cacheFname (cache_path qualname h : String) : String :=
  cache_path ++ "/" ++ qualname ++ "." ++ h ++ ".cache"

/-- `(invalidation_period is None) or (time.time() - getmtime(f) <= invalidation_period)`. -/
def ttlValid (ip : Option Int) (now mtime : Int) : Bool :=
  match ip with
  | none => true
  | some p => decide (now - mtime ≤ p)

/-- The file system after `pickle.dump((CACHE_VER, args, kwargs, v), …)`
into `fname`; the write stamps the current time as the file's mtime. -/
def storeFs (st : CallState V) (fname : String) (args kwargs : PyVal) (v : V) :
    String → Option (FileData V) :=
  fun n => if n = fname then some ⟨st.now, .entry CACHE_VER args kwargs v⟩ else st.fs n

/-- `retval = f(*args, **kwargs)` followed by the unconditional store.
An exception from `f` propagates and skips the store. -/
def invokeAndStore (fres : Except E V) (st : CallState V) (fname : String)
    (args kwargs : PyVal) : CallOutcome E V :=
  match fres with
  | .ok v => ⟨.ok v, true, storeFs st fname args kwargs v, st.dirs⟩
  | .error e => ⟨.error (.raised e), true, st.fs, st.dirs⟩

/-- The body of `cache_checking_call` from the `os.path.exists` test on:
lookup the cache file, run the validity checks in source order
(ttl, then load, then version, then the two repr rechecks), take the
fast-path return on full success, otherwise invoke and store. -/
def cccOnFile (fres : Except E V) (fname : String) (args kwargs : PyVal)
    (invalidation_period : Option Int) (st : CallState V) : CallOutcome E V :=
  match st.fs fname with
  | some fd =>
    if ttlValid invalidation_period st.now fd.mtime then
      match fd.content with
      | .corrupt => ⟨.error .unpickleError, false, st.fs, st.dirs⟩
      | .entry ver a k r =>
        if ver = CACHE_VER then
          if pyRepr a = pyRepr args then
            if pyRepr k = pyRepr kwargs then
              ⟨.ok r, false, st.fs, st.dirs⟩
            else invokeAndStore fres st fname args kwargs
          else invokeAndStore fres st fname args kwargs
        else invokeAndStore fres st fname args kwargs
    else invokeAndStore fres st fname args kwargs
  | none => invokeAndStore fres st fname args kwargs

/-- Shallow embedding of `cache_checking_call`.  `fres` is the (pure)
result the callable produces when invoked on exactly these arguments;
`args` is the positional container (`tuple` from the function branch,
`list` from the bound-method branch) and `kwargs` the keyword dict. -/
def cache_checking_call (fres : Except E V) (qualname : String)
    (args kwargs : PyVal) (invalidation_period : Option Int)
    (cache_path : String) (st : CallState V) : CallOutcome E V :=
  match cache_hash [args, kwargs] with
  | none => ⟨.error .encodeError, false, st.fs, st.dirs⟩
  | some h =>
      cccOnFile fres (cacheFname cache_path qualname h) args kwargs
        invalidation_period st

/-- Mirrors the conditions under which the source reaches
`retval = f(*args, **kwargs)` (as opposed to the fast-path return or the
uncaught `pickle.load` failure), assuming `fname` is the computed cache
file name. -/
def missPath (st : CallState V) (fname : String) (ip : Option Int)
    (args kwargs : PyVal) : Bool :=
  match st.fs fname with
  | none => true
  | some fd =>
    if ttlValid ip st.now fd.mtime then
      match fd.content with
      | .corrupt => false
      | .entry ver a k _ =>
          !(ver == CACHE_VER && pyRepr a == pyRepr args && pyRepr k == pyRepr kwargs)
    else true

/-! ## The decorator wrapper

`reproducible_call(...)` returns a decorator whose wrapper (a) bootstraps
the cache directory, (b) dispatches on the callable's shape: recognized
function types go straight to `cache_checking_call` with the `*args`
tuple; recognized bound-method types are replaced by
`getattr(func.__self__.__class__, func.__name__)` with
`[func.__self__] + list(args)`; anything else raises. -/

/-- A Python class as seen by `getattr`: a name and a method table mapping
a method name to the unbound function's `__qualname__` and behaviour. -/
structure PyClass (E V : Type) where
  name : String
  methods : String → Option (String × (List PyVal → PyVal → Except E V))

/-- The callable shapes distinguished by
`isinstance(func, function_types)` / `isinstance(func, method_types)`. -/
inductive PyCallable (E V : Type) where
  | function (qualname : String) (impl : List PyVal → PyVal → Except E V)
  | boundMethod (methodName : String) (receiver : PyVal) (cls : PyClass E V)
  | other (typeName : String)

/-- Dict built from keyword arguments (call-site insertion order). -/
def kwDict (kwargs : PyKVs) : PyVal := .dict kwargs

def PyList.ofList : List PyVal → PyList
  | [] => .nil
  | x :: xs => .cons x (ofList xs)

/-- The body of the wrapper after the cache-directory bootstrap. -/
def wrapperBody (func : PyCallable E V) (cache_path : String)
    (invalidation_period : Option Int) (args : List PyVal) (kwargs : PyVal)
    (st : CallState V) : CallOutcome E V :=
  match func with
  | .function qn impl =>
      cache_checking_call (impl args kwargs) qn (.tuple (PyList.ofList args)) kwargs
        invalidation_period cache_path st
  | .boundMethod name recv cls =>
      match cls.methods name with
      | some (qn, impl) =>
          cache_checking_call (impl (recv :: args) kwargs) qn
            (.list (PyList.ofList (recv :: args))) kwargs
            invalidation_period cache_path st
      | none => ⟨.error .attributeError, false, st.fs, st.dirs⟩
  | .other t => ⟨.error (.unsupportedCallable t), false, st.fs, st.dirs⟩

/-- Shallow embedding of the wrapper produced by `reproducible_call`. -/
def wrapper (func : PyCallable E V) (cache_path : String)
    (invalidation_period : Option Int) (args : List PyVal) (kwargs : PyVal)
    (st : CallState V) : CallOutcome E V :=
  if st.dirs cache_path then
    wrapperBody func cache_path invalidation_period args kwargs st
  else if (st.fs cache_path).isSome then
    ⟨.error .cacheDirConflict, false, st.fs, st.dirs⟩
  else
    wrapperBody func cache_path invalidation_period args kwargs
      { st with dirs := fun d => if d = cache_path then true else st.dirs d }

/-! ## Control-path lemmas for `cache_checking_call` -/

theorem ccc_hash_some (fres : Except E V) (qn : String) (args kwargs : PyVal)
    (ip : Option Int) (cp h : String) (st : CallState V)
    (hh : cache_hash [args, kwargs] = some h) :
    cache_checking_call fres qn args kwargs ip cp st =
      cccOnFile fres (cacheFname cp qn h) args kwargs ip st := by
  unfold cache_checking_call
  rw [hh]

theorem cccOnFile_invoke (fres : Except E V) (fname : String)
    (args kwargs : PyVal) (ip : Option Int) (st : CallState V)
    (hm : missPath st fname ip args kwargs = true) :
    cccOnFile fres fname args kwargs ip st =
      invokeAndStore fres st fname args kwargs := by
  unfold cccOnFile
  unfold missPath at hm
  cases hfs : st.fs fname with
  | none => rfl
  | some fd =>
    rw [hfs] at hm
    obtain ⟨mt, content⟩ := fd
    cases ht : ttlValid ip st.now mt with
    | false => simp [ht] at hm ⊢
    | true =>
      cases content with
      | corrupt => simp [ht] at hm
      | entry ver a k r =>
        simp only [ht, if_true, Bool.not_eq_true', Bool.and_eq_false_iff,
          beq_eq_false_iff_ne, ne_eq] at hm
        by_cases hv : ver = CACHE_VER
        · by_cases ha : pyRepr a = pyRepr args
          · by_cases hk : pyRepr k = pyRepr kwargs
            · exfalso
              revert hm
              simp [hv, ha, hk]
            · simp [ht, hv, ha, hk]
          · simp [ht, hv, ha]
        · simp [ht, hv]

theorem cccOnFile_fastpath (fres : Except E V) (fname : String)
    (args kwargs : PyVal) (ip : Option Int) (st : CallState V)
    (mt : Int) (a k : PyVal) (r : V)
    (hfs : st.fs fname = some ⟨mt, .entry CACHE_VER a k r⟩)
    (ht : ttlValid ip st.now mt = true)
    (ha : pyRepr a = pyRepr args)
    (hk : pyRepr k = pyRepr kwargs) :
    cccOnFile fres fname args kwargs ip st = ⟨.ok r, false, st.fs, st.dirs⟩ := by
  unfold cccOnFile
  rw [hfs]
  simp [ht, ha, hk]

theorem cccOnFile_corrupt (fres : Except E V) (fname : String)
    (args kwargs : PyVal) (ip : Option Int) (st : CallState V) (mt : Int)
    (hfs : st.fs fname = some ⟨mt, .corrupt⟩)
    (ht : ttlValid ip st.now mt = true) :
    cccOnFile fres fname args kwargs ip st =
      ⟨.error .unpickleError, false, st.fs, st.dirs⟩ := by
  unfold cccOnFile
  rw [hfs]
  simp [ht]

theorem ccc_encode_fail (fres : Except E V) (qn : String) (args kwargs : PyVal)
    (ip : Option Int) (cp : String) (st : CallState V)
    (hh : cache_hash [args, kwargs] = none) :
    cache_checking_call fres qn args kwargs ip cp st =
      ⟨.error .encodeError, false, st.fs, st.dirs⟩ := by
  unfold cache_checking_call
  rw [hh]

theorem missPath_of_none (st : CallState V) (fname : String) (ip : Option Int)
    (args kwargs : PyVal) (hfs : st.fs fname = none) :
    missPath st fname ip args kwargs = true := by
  unfold missPath
  rw [hfs]

theorem missPath_of_not_checks (st : CallState V) (fname : String)
    (ip : Option Int) (args kwargs : PyVal) (mt : Int) (ver : String)
    (a k : PyVal) (r : V)
    (hfs : st.fs fname = some ⟨mt, .entry ver a k r⟩)
    (hno : ¬(ver = CACHE_VER ∧ ttlValid ip st.now mt = true ∧
             pyRepr a = pyRepr args ∧ pyRepr k = pyRepr kwargs)) :
    missPath st fname ip args kwargs = true := by
  unfold missPath
  rw [hfs]
  by_cases ht : ttlValid ip st.now mt
  · simp only [ht, if_true, Bool.not_eq_true']
    by_cases hv : ver = CACHE_VER
    · by_cases ha : pyRepr a = pyRepr args
      · by_cases hk : pyRepr k = pyRepr kwargs
        · exact absurd ⟨hv, ht, ha, hk⟩ hno
        · simp [hk]
      · simp [ha]
    · simp [hv]
  · simp [ht]

/-! ## The claims -/

/-- C1: for a pure callable and fixed arguments with no prior entry, the
first call invokes the callable, returns its result and stores an entry;
a second identical call (no ttl, or within ttl — and whatever the callable
would now do) returns the same result without invoking the callable and
leaves the file system, hence the entry's mtime, unchanged. -/
theorem claim_C1 (fres2 : Except E V) (qn cp h : String) (args kwargs : PyVal)
    (v : V) (ip ip2 : Option Int) (st : CallState V) (now2 : Int)
    (hh : cache_hash [args, kwargs] = some h)
    (hfs : st.fs (cacheFname cp qn h) = none)
    (ht : ttlValid ip2 now2 st.now = true) :
    cache_checking_call (E := E) (.ok v) qn args kwargs ip cp st =
      ⟨.ok v, true, storeFs st (cacheFname cp qn h) args kwargs v, st.dirs⟩ ∧
    cache_checking_call fres2 qn args kwargs ip2 cp
        ⟨storeFs st (cacheFname cp qn h) args kwargs v, st.dirs, now2⟩ =
      ⟨.ok v, false, storeFs st (cacheFname cp qn h) args kwargs v, st.dirs⟩ := by
  constructor
  · rw [ccc_hash_some _ _ _ _ _ _ _ _ hh,
      cccOnFile_invoke _ _ _ _ _ _ (missPath_of_none _ _ _ _ _ hfs)]
    rfl
  · rw [ccc_hash_some _ _ _ _ _ _ _ _ hh]
    exact cccOnFile_fastpath _ _ _ _ _ _ st.now args kwargs v
      (by simp [storeFs]) ht rfl rfl

/-- C2: when an entry file exists for the computed key and holds a
readable 4-tuple, the stored result is returned without invocation
(leaving the file system untouched) if and only if the version matches,
the ttl check passes, and both repr rechecks pass; on any failed check the
callable is re-invoked and the entry overwritten with the current time as
its new modification time. -/
theorem claim_C2 (v : V) (qn cp h : String) (args kwargs : PyVal)
    (ip : Option Int) (st : CallState V) (mt : Int) (ver : String)
    (a k : PyVal) (r : V)
    (hh : cache_hash [args, kwargs] = some h)
    (hfs : st.fs (cacheFname cp qn h) = some ⟨mt, .entry ver a k r⟩) :
    (cache_checking_call (E := E) (.ok v) qn args kwargs ip cp st =
        ⟨.ok r, false, st.fs, st.dirs⟩ ↔
      (ver = CACHE_VER ∧ ttlValid ip st.now mt = true ∧
        pyRepr a = pyRepr args ∧ pyRepr k = pyRepr kwargs)) ∧
    (¬(ver = CACHE_VER ∧ ttlValid ip st.now mt = true ∧
        pyRepr a = pyRepr args ∧ pyRepr k = pyRepr kwargs) →
      cache_checking_call (E := E) (.ok v) qn args kwargs ip cp st =
        ⟨.ok v, true, storeFs st (cacheFname cp qn h) args kwargs v, st.dirs⟩) := by
  have hinvoke : ∀ _hno : ¬(ver = CACHE_VER ∧ ttlValid ip st.now mt = true ∧
      pyRepr a = pyRepr args ∧ pyRepr k = pyRepr kwargs),
      cache_checking_call (E := E) (.ok v) qn args kwargs ip cp st =
        ⟨.ok v, true, storeFs st (cacheFname cp qn h) args kwargs v, st.dirs⟩ := by
    intro hno
    rw [ccc_hash_some _ _ _ _ _ _ _ _ hh,
      cccOnFile_invoke _ _ _ _ _ _
        (missPath_of_not_checks _ _ _ _ _ _ _ _ _ _ hfs hno)]
    rfl
  refine ⟨⟨fun heq => ?_, fun hc => ?_⟩, hinvoke⟩
  · by_cases hc : ver = CACHE_VER ∧ ttlValid ip st.now mt = true ∧
        pyRepr a = pyRepr args ∧ pyRepr k = pyRepr kwargs
    · exact hc
    · rw [hinvoke hc] at heq
      have : true = false := congrArg CallOutcome.invoked heq
      cases this
  · obtain ⟨hv, ht, ha, hk⟩ := hc
    subst hv
    rw [ccc_hash_some _ _ _ _ _ _ _ _ hh]
    exact cccOnFile_fastpath _ _ _ _ _ _ mt a k r hfs ht ha hk

/-- C6: when the wrapped callable raises on a reached invocation (cache
miss or failed validity check), the exception propagates and the file
system is left exactly as it was — in particular a stale or mismatched
entry is not overwritten. -/
theorem claim_C6 (e : E) (qn cp h : String) (args kwargs : PyVal)
    (ip : Option Int) (st : CallState V)
    (hh : cache_hash [args, kwargs] = some h)
    (hm : missPath st (cacheFname cp qn h) ip args kwargs = true) :
    cache_checking_call (V := V) (.error e) qn args kwargs ip cp st =
      ⟨.error (.raised e), true, st.fs, st.dirs⟩ := by
  rw [ccc_hash_some _ _ _ _ _ _ _ _ hh, cccOnFile_invoke _ _ _ _ _ _ hm]
  rfl

/-- C7 (amended): an existing, non-expired entry whose stored
format_version differs from the current scheme version is absorbed as a
cache miss — the callable is re-invoked, the entry is overwritten, and no
error surfaces. -/
theorem claim_C7 (v : V) (qn cp h : String) (args kwargs : PyVal)
    (ip : Option Int) (st : CallState V) (mt : Int) (ver : String)
    (a k : PyVal) (r : V)
    (hh : cache_hash [args, kwargs] = some h)
    (hfs : st.fs (cacheFname cp qn h) = some ⟨mt, .entry ver a k r⟩)
    (ht : ttlValid ip st.now mt = true)
    (hv : ver ≠ CACHE_VER) :
    cache_checking_call (E := E) (.ok v) qn args kwargs ip cp st =
      ⟨.ok v, true, storeFs st (cacheFname cp qn h) args kwargs v, st.dirs⟩ := by
  rw [ccc_hash_some _ _ _ _ _ _ _ _ hh,
    cccOnFile_invoke _ _ _ _ _ _
      (missPath_of_not_checks _ _ _ _ _ _ _ _ _ _ hfs (fun hc => hv hc.1))]
  rfl

/-- C8: a callable that is neither a recognized function type nor a
recognized bound-method type is rejected by the wrapper: the error
surfaces, nothing is invoked, and no cache entry is written (assuming the
cache-directory path is not squatted by a file). -/
theorem claim_C8 (t cp : String) (args : List PyVal) (kwargs : PyVal)
    (ip : Option Int) (st : CallState V)
    (hok : st.dirs cp = true ∨ st.fs cp = none) :
    (wrapper (E := E) (.other t) cp ip args kwargs st).result =
        .error (.unsupportedCallable t) ∧
    (wrapper (E := E) (.other t) cp ip args kwargs st).invoked = false ∧
    (wrapper (E := E) (.other t) cp ip args kwargs st).fs = st.fs := by
  unfold wrapper
  by_cases hd : st.dirs cp
  · simp [hd, wrapperBody]
  · rcases hok with hok | hok
    · exact absurd hok hd
    · simp [hd, hok, wrapperBody]

/-- C9: whenever an entry is written, it stores exactly
`(CACHE_VER, args, kwargs, result)`, the stored argument pair hashes to
the fingerprint embedded in the entry's own file name, and a subsequent
identical request against the written state (within ttl) passes all three
validity checks and fast-paths to the stored result. -/
theorem claim_C9 (fres2 : Except E V) (qn cp h : String) (args kwargs : PyVal)
    (v : V) (ip ip2 : Option Int) (st : CallState V) (now2 : Int)
    (hh : cache_hash [args, kwargs] = some h)
    (hm : missPath st (cacheFname cp qn h) ip args kwargs = true)
    (ht : ttlValid ip2 now2 st.now = true) :
    (cache_checking_call (E := E) (.ok v) qn args kwargs ip cp st).fs
        (cacheFname cp qn h) =
      some ⟨st.now, .entry CACHE_VER args kwargs v⟩ ∧
    cache_hash [args, kwargs] = some h ∧
    cache_checking_call fres2 qn args kwargs ip2 cp
        ⟨(cache_checking_call (E := E) (.ok v) qn args kwargs ip cp st).fs, st.dirs, now2⟩ =
      ⟨.ok v, false, (cache_checking_call (E := E) (.ok v) qn args kwargs ip cp st).fs,
        st.dirs⟩ := by
  have h1 : cache_checking_call (E := E) (.ok v) qn args kwargs ip cp st =
      ⟨.ok v, true, storeFs st (cacheFname cp qn h) args kwargs v, st.dirs⟩ := by
    rw [ccc_hash_some _ _ _ _ _ _ _ _ hh, cccOnFile_invoke _ _ _ _ _ _ hm]
    rfl
  refine ⟨?_, hh, ?_⟩
  · rw [h1]
    simp [storeFs]
  · rw [h1, ccc_hash_some _ _ _ _ _ _ _ _ hh]
    exact cccOnFile_fastpath _ _ _ _ _ _ st.now args kwargs v
      (by simp [storeFs]) ht rfl rfl

end Machine

/-! ## Concrete fixtures for witnesses (the end-to-end test's call
`f(10, 20, c=30, d=4)` with cache root `"cache"`). -/

def fnameF : String := cacheFname "cache" "f" "5270d670cd06f7c9"

/-- Fresh state: empty file system, cache dir present, time 0. -/
def emptyState : CallState Int := ⟨fun _ => none, fun _ => true, 0⟩

/-- State holding a valid entry for `f(10, 20, c=30, d=4)` written at
time 0, observed at time 1. -/
def hitState : CallState Int :=
  ⟨fun n => if n = fnameF then some ⟨0, .entry CACHE_VER argsF kwargsF 320⟩
            else none,
   fun _ => true, 1⟩

/-- State whose entry for the same call has an unreadable serialization. -/
def corruptState : CallState Int :=
  ⟨fun n => if n = fnameF then some ⟨0, .corrupt⟩ else none,
   fun _ => true, 1⟩

/-- State whose entry has a stale format version tag. -/
def oldVerState : CallState Int :=
  ⟨fun n => if n = fnameF then some ⟨0, .entry "v00" argsF kwargsF 320⟩
            else none,
   fun _ => true, 1⟩

theorem claim_C1_witness :
    cache_checking_call (E := String) (.ok 320) "f" argsF kwargsF none "cache"
        emptyState =
      ⟨.ok 320, true, storeFs emptyState fnameF argsF kwargsF 320,
        emptyState.dirs⟩ ∧
    cache_checking_call (E := String) (.error "boom") "f" argsF kwargsF none
        "cache" ⟨storeFs emptyState fnameF argsF kwargsF 320,
          emptyState.dirs, 5⟩ =
      ⟨.ok 320, false, storeFs emptyState fnameF argsF kwargsF 320,
        emptyState.dirs⟩ :=
  claim_C1 (.error "boom") "f" "cache" "5270d670cd06f7c9" argsF kwargsF 320
    none none emptyState 5 cache_hash_test_vector rfl rfl

theorem claim_C2_witness :
    (cache_checking_call (E := String) (.ok 7) "f" argsF kwargsF (some 10)
          "cache" hitState =
        ⟨.ok 320, false, hitState.fs, hitState.dirs⟩ ↔
      (CACHE_VER = CACHE_VER ∧ ttlValid (some 10) hitState.now 0 = true ∧
        pyRepr argsF = pyRepr argsF ∧ pyRepr kwargsF = pyRepr kwargsF)) ∧
    (¬(CACHE_VER = CACHE_VER ∧ ttlValid (some 10) hitState.now 0 = true ∧
        pyRepr argsF = pyRepr argsF ∧ pyRepr kwargsF = pyRepr kwargsF) →
      cache_checking_call (E := String) (.ok 7) "f" argsF kwargsF (some 10)
          "cache" hitState =
        ⟨.ok 7, true, storeFs hitState fnameF argsF kwargsF 7,
          hitState.dirs⟩) :=
  claim_C2 7 "f" "cache" "5270d670cd06f7c9" argsF kwargsF (some 10) hitState
    0 CACHE_VER argsF kwargsF 320 cache_hash_test_vector rfl

theorem claim_C6_witness :
    cache_checking_call (V := Int) (.error "boom") "f" argsF kwargsF (some 1)
        "cache" ⟨hitState.fs, hitState.dirs, 100⟩ =
      ⟨.error (.raised "boom"), true, hitState.fs, hitState.dirs⟩ :=
  claim_C6 "boom" "f" "cache" "5270d670cd06f7c9" argsF kwargsF (some 1)
    ⟨hitState.fs, hitState.dirs, 100⟩ cache_hash_test_vector (by decide)

theorem claim_C7_witness :
    cache_checking_call (E := String) (.ok 320) "f" argsF kwargsF none "cache"
        oldVerState =
      ⟨.ok 320, true, storeFs oldVerState fnameF argsF kwargsF 320,
        oldVerState.dirs⟩ :=
  claim_C7 320 "f" "cache" "5270d670cd06f7c9" argsF kwargsF none oldVerState
    0 "v00" argsF kwargsF 320 cache_hash_test_vector rfl rfl (by decide)

/-- C7 counterexample: on an existing, non-expired entry whose serialized
content is unreadable, the code does not absorb the condition as a cache
miss — the callable is not re-invoked and the deserialization error
surfaces to the caller. -/
theorem claim_C7_counterexample :
    ¬ ((cache_checking_call (E := String) (.ok 320) "f" argsF kwargsF none
          "cache" corruptState).invoked = true ∧
       ∀ err, (cache_checking_call (E := String) (.ok 320) "f" argsF kwargsF
          none "cache" corruptState).result ≠ .error err) := by
  have hval : cache_checking_call (E := String) (.ok 320) "f" argsF kwargsF
      none "cache" corruptState =
      ⟨.error .unpickleError, false, corruptState.fs, corruptState.dirs⟩ := by
    rw [ccc_hash_some _ _ _ _ _ _ _ _ cache_hash_test_vector]
    exact cccOnFile_corrupt _ _ _ _ _ _ 0 rfl rfl
  intro hcl
  rw [hval] at hcl
  exact hcl.2 .unpickleError rfl

theorem claim_C8_witness :
    (wrapper (E := String) (V := Int) (.other "int") "cache" none []
        (.dict .nil) emptyState).result =
      .error (.unsupportedCallable "int") ∧
    (wrapper (E := String) (V := Int) (.other "int") "cache" none []
        (.dict .nil) emptyState).invoked = false ∧
    (wrapper (E := String) (V := Int) (.other "int") "cache" none []
        (.dict .nil) emptyState).fs = emptyState.fs :=
  claim_C8 "int" "cache" [] (.dict .nil) none emptyState (Or.inl rfl)

theorem claim_C9_witness :
    (cache_checking_call (E := String) (.ok 320) "f" argsF kwargsF none
        "cache" emptyState).fs fnameF =
      some ⟨emptyState.now, .entry CACHE_VER argsF kwargsF 320⟩ ∧
    cache_hash [argsF, kwargsF] = some "5270d670cd06f7c9" ∧
    cache_checking_call (E := String) (.error "boom") "f" argsF kwargsF none
        "cache" ⟨(cache_checking_call (E := String) (.ok 320) "f" argsF
            kwargsF none "cache" emptyState).fs, emptyState.dirs, 9⟩ =
      ⟨.ok 320, false, (cache_checking_call (E := String) (.ok 320) "f" argsF
          kwargsF none "cache" emptyState).fs, emptyState.dirs⟩ :=
  claim_C9 (.error "boom") "f" "cache" "5270d670cd06f7c9" argsF kwargsF 320
    none none emptyState 9 cache_hash_test_vector
    (missPath_of_none _ _ _ _ _ rfl) rfl

/-! ## ASCII propagation through `repr` containers -/

theorem isAscii_append (s t : String) :
    isAscii (s ++ t) = (isAscii s && isAscii t) := by
  simp [isAscii, String.data_append, List.all_append]

theorem band_left {a b : Bool} (h : (a && b) = true) : a = true := by
  cases a <;> cases b <;> simp_all

theorem band_right {a b : Bool} (h : (a && b) = true) : b = true := by
  cases a <;> cases b <;> simp_all

theorem isAscii_joinSep_mem (sep x : String) (l : List String) (hx : x ∈ l)
    (h : isAscii (joinSep sep l) = true) : isAscii x = true := by
  induction l with
  | nil => cases hx
  | cons a l ih =>
    cases l with
    | nil =>
      rcases List.mem_singleton.mp hx with rfl
      simpa [joinSep] using h
    | cons b l2 =>
      rw [show joinSep sep (a :: b :: l2) = a ++ sep ++ joinSep sep (b :: l2)
            from rfl, isAscii_append, isAscii_append] at h
      rcases List.mem_cons.mp hx with rfl | hx
      · exact band_left (band_left h)
      · exact ih hx (band_right h)

theorem toList_ofList (l : List PyVal) : (PyList.ofList l).toList = l := by
  induction l with
  | nil => rfl
  | cons a l ih => simp [PyList.ofList, PyList.toList, ih]

theorem mem_pyReprs (x : PyVal) (xs : PyList) (hx : x ∈ xs.toList) :
    pyRepr x ∈ pyReprs xs := by
  match xs with
  | .nil => cases hx
  | .cons a xs =>
    rcases List.mem_cons.mp hx with rfl | hx
    · simp [pyReprs]
    · simp only [pyReprs, List.mem_cons]
      exact Or.inr (mem_pyReprs x xs hx)

theorem isAscii_of_mem_tuple (x : PyVal) (xs : PyList) (hx : x ∈ xs.toList)
    (h : isAscii (pyRepr (.tuple xs)) = true) : isAscii (pyRepr x) = true := by
  cases xs with
  | nil => cases hx
  | cons a xs' =>
    cases xs' with
    | nil =>
      rcases List.mem_singleton.mp hx with rfl
      rw [show pyRepr (.tuple (.cons x .nil)) = "(" ++ pyRepr x ++ ",)"
            from rfl, isAscii_append, isAscii_append] at h
      exact band_right (band_left h)
    | cons b xs'' =>
      rw [show pyRepr (.tuple (.cons a (.cons b xs''))) =
            "(" ++ joinSep ", " (pyReprs (.cons a (.cons b xs''))) ++ ")"
            from rfl, isAscii_append, isAscii_append] at h
      exact isAscii_joinSep_mem ", " _ _ (mem_pyReprs x _ hx)
        (band_right (band_left h))

theorem isAscii_of_mem_list (x : PyVal) (xs : PyList) (hx : x ∈ xs.toList)
    (h : isAscii (pyRepr (.list xs)) = true) : isAscii (pyRepr x) = true := by
  rw [show pyRepr (.list xs) = "[" ++ joinSep ", " (pyReprs xs) ++ "]"
        from rfl, isAscii_append, isAscii_append] at h
  exact isAscii_joinSep_mem ", " _ _ (mem_pyReprs x _ hx)
    (band_right (band_left h))

theorem mem_pyReprKVs_val (v : PyVal) (es : PyKVs) (hv : v ∈ es.vals) :
    ∃ k, (pyRepr k ++ ": " ++ pyRepr v) ∈ pyReprKVs es := by
  match es with
  | .nil => cases hv
  | .cons k0 v0 es =>
    rcases List.mem_cons.mp hv with rfl | hv
    · exact ⟨k0, by simp [pyReprKVs]⟩
    · obtain ⟨k1, hk1⟩ := mem_pyReprKVs_val v es hv
      exact ⟨k1, by simp only [pyReprKVs, List.mem_cons]; exact Or.inr hk1⟩

theorem isAscii_of_val_dict (v : PyVal) (es : PyKVs) (hv : v ∈ es.vals)
    (h : isAscii (pyRepr (.dict es)) = true) : isAscii (pyRepr v) = true := by
  rw [show pyRepr (.dict es) = "\x7b" ++ joinSep ", " (pyReprKVs es) ++ "\x7d"
        from rfl, isAscii_append, isAscii_append] at h
  obtain ⟨k, hk⟩ := mem_pyReprKVs_val v es hv
  have := isAscii_joinSep_mem ", " _ _ hk
    (band_right (band_left h))
  rw [isAscii_append, isAscii_append] at this
  exact band_right this

theorem hashInput_pair (a k : PyVal) :
    hashInput [a, k] = pyRepr a ++ "," ++ pyRepr k := rfl

theorem cache_hash_none_of_not_ascii (a k : PyVal)
    (h : isAscii (hashInput [a, k]) = false) :
    cache_hash [a, k] = none := by
  simp [cache_hash, encodeAscii, h]

theorem wrapper_dir_exists {E V : Type} (func : PyCallable E V)
    (cp : String) (ip : Option Int) (args : List PyVal) (kwargs : PyVal)
    (st : CallState V) (hdir : st.dirs cp = true) :
    wrapper func cp ip args kwargs st =
      wrapperBody func cp ip args kwargs st := by
  unfold wrapper
  simp [hdir]

/-- C10: the canonical form is ASCII-encoded before hashing, and the hash
is computed before any cache lookup, invocation or store: a call with some
argument (positional, or keyword value) whose repr has a non-ASCII
character fails with the encoding error, with nothing invoked and no file
written; conversely a call that returns a value only does so when every
argument's repr is pure ASCII. -/
theorem claim_C10 {E V : Type} (qn cp : String)
    (impl : List PyVal → PyVal → Except E V) (args : List PyVal) (kw : PyKVs)
    (ip : Option Int) (st : CallState V)
    (hdir : st.dirs cp = true) :
    (∀ x : PyVal, (x ∈ args ∨ x ∈ kw.vals) → isAscii (pyRepr x) = false →
      wrapper (.function qn impl) cp ip args (.dict kw) st =
        ⟨.error .encodeError, false, st.fs, st.dirs⟩) ∧
    (∀ v : V,
      (wrapper (.function qn impl) cp ip args (.dict kw) st).result = .ok v →
      ∀ x : PyVal, (x ∈ args ∨ x ∈ kw.vals) → isAscii (pyRepr x) = true) := by
  have hfail : ∀ x : PyVal, (x ∈ args ∨ x ∈ kw.vals) →
      isAscii (pyRepr x) = false →
      wrapper (.function qn impl) cp ip args (.dict kw) st =
        ⟨.error .encodeError, false, st.fs, st.dirs⟩ := by
    intro x hmem hna
    rw [wrapper_dir_exists _ _ _ _ _ _ hdir]
    show cache_checking_call (impl args (.dict kw)) qn
        (.tuple (PyList.ofList args)) (.dict kw) ip cp st = _
    have hhash : cache_hash [.tuple (PyList.ofList args), .dict kw] = none := by
      apply cache_hash_none_of_not_ascii
      rw [hashInput_pair, isAscii_append, isAscii_append]
      cases hall : isAscii (pyRepr (PyVal.tuple (PyList.ofList args))) with
      | false => rfl
      | true =>
        cases hall2 : isAscii (pyRepr (PyVal.dict kw)) with
        | false => simp
        | true =>
          exfalso
          rcases hmem with hmem | hmem
          · rw [isAscii_of_mem_tuple x (PyList.ofList args)
              (by rw [toList_ofList]; exact hmem) hall] at hna
            cases hna
          · rw [isAscii_of_val_dict x kw hmem hall2] at hna
            cases hna
    exact ccc_encode_fail _ _ _ _ _ _ _ hhash
  refine ⟨hfail, fun v hres x hmem => ?_⟩
  cases hasc : isAscii (pyRepr x) with
  | true => rfl
  | false =>
    rw [hfail x hmem hasc] at hres
    cases hres

/-- C10 witness data: a Greek-letter string argument. -/
def nonAsciiArg : PyVal := .str "π"

theorem claim_C10_witness :
    (∀ x : PyVal, (x ∈ [nonAsciiArg] ∨ x ∈ PyKVs.nil.vals) →
      isAscii (pyRepr x) = false →
      wrapper (E := String) (V := Int) (.function "f" (fun _ _ => .ok 0))
          "cache" none [nonAsciiArg] (.dict .nil) emptyState =
        ⟨.error .encodeError, false, emptyState.fs, emptyState.dirs⟩) ∧
    (∀ v : Int,
      (wrapper (E := String) (V := Int) (.function "f" (fun _ _ => .ok 0))
          "cache" none [nonAsciiArg] (.dict .nil) emptyState).result = .ok v →
      ∀ x : PyVal, (x ∈ [nonAsciiArg] ∨ x ∈ PyKVs.nil.vals) →
        isAscii (pyRepr x) = true) :=
  claim_C10 "f" "cache" (fun _ _ => .ok 0) [nonAsciiArg] .nil none
    emptyState rfl

/-! ## C4: what string is actually hashed

The spec reads the canonical form as the comma-join whose *elements* are
the individual values' reprs; the code maps `repr` over the two-element
tuple `(args, kwargs)`, so the two joined elements are the repr of the
whole positional tuple and the repr of the whole keyword dict. -/

/-- The cache key as the claim's parenthetical reads it: the last 16 hex
characters of a hash of the comma-join in which each individual positional
value's repr, then each keyword value's repr, is an element. -/
def specCacheKeyC4 (positional kwvalues : List PyVal) : Option String :=
  (encodeAscii (joinSep "," ((positional ++ kwvalues).map pyRepr))).map
    (fun bytes => pyLast 16 (sha1hex bytes))

set_option maxRecDepth 8000 in
theorem specCacheKeyC4_value :
    specCacheKeyC4 [.int 10, .int 20] [.int 30, .int 4] =
      some "06edfb68a89d8f9a" := by
  rfl

/-- C4 counterexample: at the end-to-end test's call `f(10, 20, c=30, d=4)`
the code's key is not the hash of the per-value comma-join `"10,20,30,4"`;
the two notions of canonical form disagree. -/
theorem claim_C4_counterexample :
    cache_hash [argsF, kwargsF] ≠
      specCacheKeyC4 [.int 10, .int 20] [.int 30, .int 4] := by
  rw [cache_hash_test_vector, specCacheKeyC4_value]
  decide

/-- C4 (amended): the cache key is the last 16 hex characters of a SHA-1
digest of the ASCII encoding of the comma-join of exactly two elements —
the repr of the positional container and the repr of the keyword dict
(each individual value's repr appears inside its container's repr, not as
its own element); at the test-suite call this key is the file name
fragment the tests expect. -/
theorem claim_C4 (args kwargs : PyVal) :
    cache_hash [args, kwargs] =
      (encodeAscii (pyRepr args ++ "," ++ pyRepr kwargs)).map
        (fun bytes => pyLast 16 (sha1hex bytes)) ∧
    cache_hash [argsF, kwargsF] = some "5270d670cd06f7c9" :=
  ⟨rfl, cache_hash_test_vector⟩

/-! ## C5: keyword order sensitivity -/

/-- The keyword dict of the end-to-end test supplied in the opposite
call-site order `d, c` — the same key-to-value mapping. -/
def kwargsFSwapped : PyVal := .dict (.cons (.str "d") (.int 4)
  (.cons (.str "c") (.int 30) .nil))

/-- Python dict lookup by string key over the modelled entries. -/
def PyKVs.lookup : PyKVs → String → Option PyVal
  | .nil, _ => none
  | .cons (.str s) v rest, key => if s = key then some v else rest.lookup key
  | .cons _ _ rest, key => rest.lookup key

set_option maxRecDepth 8000 in
theorem cache_hash_swapped_vector :
    cache_hash [argsF, kwargsFSwapped] = some "af1383aecdd51b22" := by
  rfl

/-- C5: the two keyword dicts are the same key-to-value mapping, yet the
code derives different cache keys (hence different entries) for them,
because the canonical form follows dict insertion order. -/
theorem claim_C5 :
    (∀ key : String,
      PyKVs.lookup (.cons (.str "c") (.int 30) (.cons (.str "d") (.int 4) .nil))
          key =
        PyKVs.lookup (.cons (.str "d") (.int 4) (.cons (.str "c") (.int 30) .nil))
          key) ∧
    cache_hash [argsF, kwargsF] ≠ cache_hash [argsF, kwargsFSwapped] := by
  constructor
  · intro key
    by_cases hc : "c" = key
    · subst hc
      simp [PyKVs.lookup]
    · by_cases hd : "d" = key
      · subst hd
        simp [PyKVs.lookup]
      · simp [PyKVs.lookup, hc, hd]
  · rw [cache_hash_test_vector, cache_hash_swapped_vector]
    decide

/-! ## C3: bound-method resolution

The structural part holds: a bound method is replaced by the function
looked up under its name on the receiver's class, with the receiver
prepended as the single synthetic argument, so the receiver's repr is part
of the hashed canonical string.  The final strengthening — *distinct
fingerprints* for any two receivers with distinct reprs — cannot hold for
a digest truncated to 16 hex characters: infinitely many receivers map
into finitely many fingerprints. -/

theorem string_append_cancel_left {s t u : String} (h : s ++ t = s ++ u) :
    t = u := by
  have hd := congrArg String.data h
  simp only [String.data_append] at hd
  exact String.ext (List.append_inj_right hd rfl)

theorem string_append_cancel_right {s t u : String} (h : s ++ u = t ++ u) :
    s = t := by
  have hd := congrArg String.data h
  simp only [String.data_append] at hd
  exact String.ext (List.append_inj_left' hd rfl)

/-- The part of the hashed canonical string that follows the receiver's
repr in a bound-method call: remaining positional reprs, the closing
bracket, the comma, and the kwargs repr. -/
def methodTail (args : List PyVal) (kwargs : PyVal) : String :=
  match args with
  | [] => "]," ++ pyRepr kwargs
  | a :: rest =>
      ", " ++ joinSep ", " (pyReprs (PyList.ofList (a :: rest))) ++
        ("]," ++ pyRepr kwargs)

theorem hashInput_method_shape (recv : PyVal) (args : List PyVal)
    (kwargs : PyVal) :
    hashInput [.list (PyList.ofList (recv :: args)), kwargs] =
      "[" ++ (pyRepr recv ++ methodTail args kwargs) := by
  cases args with
  | nil =>
    show pyRepr (.list (.cons recv .nil)) ++ "," ++ pyRepr kwargs =
      "[" ++ (pyRepr recv ++ ("]," ++ pyRepr kwargs))
    rw [show pyRepr (.list (.cons recv .nil)) =
          "[" ++ pyRepr recv ++ "]" from rfl,
        show ("]," : String) = "]" ++ "," from rfl]
    simp [String.append_assoc]
  | cons a rest =>
    show pyRepr (.list (.cons recv (PyList.ofList (a :: rest)))) ++ "," ++
        pyRepr kwargs =
      "[" ++ (pyRepr recv ++
        (", " ++ joinSep ", " (pyReprs (PyList.ofList (a :: rest))) ++
          ("]," ++ pyRepr kwargs)))
    rw [show pyRepr (.list (.cons recv (PyList.ofList (a :: rest)))) =
          "[" ++ (pyRepr recv ++ ", " ++
            joinSep ", " (pyReprs (PyList.ofList (a :: rest)))) ++ "]"
          from rfl,
        show ("]," : String) = "]" ++ "," from rfl]
    simp [String.append_assoc]

/-- C3 (amended): a bound method is cached as the unbound function looked
up by its name on the receiver's class, invoked and fingerprinted with
exactly the receiver prepended to the positional arguments; two receivers
with different canonical forms produce different hashed canonical strings
(hash preimages) — though the truncated fingerprints themselves may
collide, see the counterexample. -/
theorem claim_C3 {E V : Type} (name cp : String) (recv recv' : PyVal)
    (cls : PyClass E V) (qn : String)
    (impl : List PyVal → PyVal → Except E V) (args : List PyVal)
    (kwargs : PyVal) (ip : Option Int) (st : CallState V)
    (hm : cls.methods name = some (qn, impl))
    (hdir : st.dirs cp = true) :
    wrapper (.boundMethod name recv cls) cp ip args kwargs st =
      cache_checking_call (impl (recv :: args) kwargs) qn
        (.list (PyList.ofList (recv :: args))) kwargs ip cp st ∧
    (pyRepr recv ≠ pyRepr recv' →
      hashInput [.list (PyList.ofList (recv :: args)), kwargs] ≠
        hashInput [.list (PyList.ofList (recv' :: args)), kwargs]) := by
  constructor
  · rw [wrapper_dir_exists _ _ _ _ _ _ hdir]
    show (match cls.methods name with
      | some (qn, impl) =>
          cache_checking_call (impl (recv :: args) kwargs) qn
            (PyVal.list (PyList.ofList (recv :: args))) kwargs ip cp st
      | none =>
          ⟨.error .attributeError, false, st.fs, st.dirs⟩) = _
    rw [hm]
  · intro hne heq
    apply hne
    rw [hashInput_method_shape, hashInput_method_shape] at heq
    exact string_append_cancel_right (string_append_cancel_left heq)

/-- The two receivers `A(10)` and `A(20)` of the test class, with a
one-method class table. -/
def clsA : PyClass String Int :=
  ⟨"A", fun n => if n = "f" then some ("A.f", fun _ _ => .ok 10) else none⟩

theorem claim_C3_witness :
    wrapper (.boundMethod "f" (.obj "A(10)") clsA) "cache" none []
        (.dict .nil) emptyState =
      cache_checking_call ((fun (_ : List PyVal) (_ : PyVal) =>
          (.ok 10 : Except String Int)) [.obj "A(10)"] (.dict .nil)) "A.f"
        (.list (PyList.ofList [.obj "A(10)"])) (.dict .nil) none "cache"
        emptyState ∧
    (pyRepr (.obj "A(10)") ≠ pyRepr (.obj "A(20)") →
      hashInput [.list (PyList.ofList [.obj "A(10)"]), .dict .nil] ≠
        hashInput [.list (PyList.ofList [.obj "A(20)"]), .dict .nil]) :=
  claim_C3 "f" "cache" (.obj "A(10)") (.obj "A(20)") clsA "A.f"
    (fun _ _ => .ok 10) [] (.dict .nil) none emptyState rfl rfl

/-! ### The fingerprint-collision counterexample

`cache_hash` factors through the digest modulo `16 ^ 16`, so the map from
receivers to fingerprints factors through a finite type and cannot be
injective on an infinite family of receivers with pairwise distinct
reprs. -/

theorem hexRev_length (k n : Nat) : (hexRev k n).length = k := by
  induction k generalizing n with
  | zero => rfl
  | succ k ih => simp [hexRev, ih]

theorem hexRev_take (j k n : Nat) (h : j ≤ k) :
    (hexRev k n).take j = hexRev j n := by
  induction j generalizing k n with
  | zero => simp [hexRev]
  | succ j ih =>
    cases k with
    | zero => exact absurd h (by omega)
    | succ k =>
      simp only [hexRev, List.take_succ_cons]
      rw [ih k (n / 16) (by omega)]

theorem hexRev_mod (j n : Nat) : hexRev j (n % 16 ^ j) = hexRev j n := by
  induction j generalizing n with
  | zero => rfl
  | succ j ih =>
    simp only [hexRev]
    have h16 : (16 : Nat) ∣ 16 ^ (j + 1) := dvd_pow_self 16 (Nat.succ_ne_zero j)
    have hhead : n % 16 ^ (j + 1) % 16 = n % 16 := Nat.mod_mod_of_dvd n h16
    have htail : n % 16 ^ (j + 1) / 16 = n / 16 % 16 ^ j := by
      rw [show (16 : Nat) ^ (j + 1) = 16 * 16 ^ j from by ring]
      exact Nat.mod_mul_right_div_self n 16 (16 ^ j)
    rw [hhead, htail, ih]

/-- The last 16 hex characters of the fixed 40-hex digest depend only on
the digest modulo `16 ^ 16`. -/
theorem pyLast_toHexFixed (m : Nat) :
    pyLast 16 (toHexFixed 40 m) = toHexFixed 16 (m % 16 ^ 16) := by
  show String.mk ((hexRev 40 m).reverse.drop
      ((hexRev 40 m).reverse.length - 16)) =
    String.mk (hexRev 16 (m % 16 ^ 16)).reverse
  rw [List.length_reverse, hexRev_length,
    show (40 : Nat) - 16 = 24 from rfl, List.drop_reverse, hexRev_length,
    show (40 : Nat) - 24 = 16 from rfl, hexRev_take 16 40 m (by omega),
    hexRev_mod]

/-- A family of receivers with pairwise distinct canonical forms. -/
def recvA (n : Nat) : PyVal := .obj (String.mk (List.replicate n 'a'))

theorem recvA_repr_ne {a b : Nat} (hab : a ≠ b) :
    pyRepr (recvA a) ≠ pyRepr (recvA b) := by
  intro h
  apply hab
  have := congrArg (fun s : String => s.data.length) h
  simpa [recvA, pyRepr] using this

theorem isAscii_replicate_a (n : Nat) :
    isAscii (String.mk (List.replicate n 'a')) = true := by
  simp [isAscii, List.all_eq_true, List.mem_replicate]

theorem hashInput_recvA_ascii (n : Nat) :
    isAscii (hashInput [.list (PyList.ofList [recvA n]), .dict .nil]) =
      true := by
  rw [hashInput_method_shape, isAscii_append, isAscii_append,
    show pyRepr (recvA n) = String.mk (List.replicate n 'a') from rfl,
    isAscii_replicate_a]
  rfl

theorem recvA_key (n : Nat) :
    cache_hash [.list (PyList.ofList [recvA n]), .dict .nil] =
      some (toHexFixed 16 (sha1Nat
        ((hashInput [.list (PyList.ofList [recvA n]),
            .dict .nil]).data.map Char.toNat) % 16 ^ 16)) := by
  simp only [cache_hash, encodeAscii, hashInput_recvA_ascii, if_true,
    Option.map_some', sha1hex]
  rw [pyLast_toHexFixed]

/-- C3 counterexample (negation of the claim's final strengthening): it is
not the case that every two receivers with different canonical forms
produce distinct fingerprints — the fingerprint is a digest truncated to
16 hex characters, so by pigeonhole two receivers with different reprs
share one. -/
theorem claim_C3_counterexample :
    ¬ ∀ (x y : PyVal), pyRepr x ≠ pyRepr y →
        cache_hash [.list (PyList.ofList [x]), .dict .nil] ≠
          cache_hash [.list (PyList.ofList [y]), .dict .nil] := by
  intro H
  have hpos : 0 < 16 ^ 16 := by positivity
  obtain ⟨a, b, hab, hfe⟩ := Finite.exists_ne_map_eq_of_infinite
    (fun n : Nat => (⟨sha1Nat ((hashInput [.list (PyList.ofList [recvA n]),
        .dict .nil]).data.map Char.toNat) % 16 ^ 16,
      Nat.mod_lt _ hpos⟩ : Fin (16 ^ 16)))
  apply H (recvA a) (recvA b) (recvA_repr_ne hab)
  rw [recvA_key a, recvA_key b]
  have hv : sha1Nat ((hashInput [.list (PyList.ofList [recvA a]),
        .dict .nil]).data.map Char.toNat) % 16 ^ 16 =
      sha1Nat ((hashInput [.list (PyList.ofList [recvA b]),
        .dict .nil]).data.map Char.toNat) % 16 ^ 16 :=
    congrArg Fin.val hfe
  rw [hv]

end OnceAgain
